import Mathlib

/-!
Verification of the ZenTrack reminder subsystem (`src-tauri/src/reminders.rs`,
with its caller `update_task` in `src-tauri/src/main.rs`).

The embedding models absolute instants as `Int` seconds since the Unix epoch
(the code works at second resolution through `chrono`; fractional seconds and
leap seconds are outside every property checked here).  The host environment
(the local-timezone database behind `chrono::Local` and the JSON decoding
capability behind `serde_json`) is abstracted as a `Host` record; the three
timestamp grammars of `normalize_datetime` are embedded as concrete string
parsers.  The SQLite `reminders` table is a list of rows, its
`(task_id, remind_at)` unique index an explicit check on insert/update.
-/

namespace ZenTrack

/-! ## Calendar arithmetic (second resolution) -/

def isLeap (y : Int) : Bool :=
  y % 4 == 0 && (y % 100 != 0 || y % 400 == 0)

def daysInMonth (y m : Int) : Int :=
  if m == 2 then (if isLeap y then 29 else 28)
  else if m == 4 || m == 6 || m == 9 || m == 11 then 30
  else 31

/-- Days since 1970-01-01 of the civil date y-m-d (valid dates), via the
Julian-day-number formula with floor division. -/
def daysFromCivil (y m d : Int) : Int :=
  let a := Int.fdiv (14 - m) 12
  let y2 := y + 4800 - a
  let m2 := m + 12 * a - 3
  d + Int.fdiv (153 * m2 + 2) 5 + 365 * y2 + Int.fdiv y2 4 - Int.fdiv y2 100
    + Int.fdiv y2 400 - 32045 - 2440588

/-- Inverse of `daysFromCivil`: the civil date of a day count since the epoch. -/
def civilFromDays (z : Int) : Int × Int × Int :=
  let z2 := z + 719468
  let era := Int.fdiv z2 146097
  let doe := z2 - era * 146097
  let yoe := Int.fdiv (doe - Int.fdiv doe 1460 + Int.fdiv doe 36524 - Int.fdiv doe 146096) 365
  let y := yoe + era * 400
  let doy := doe - (365 * yoe + Int.fdiv yoe 4 - Int.fdiv yoe 100)
  let mp := Int.fdiv (5 * doy + 2) 153
  let d := doy - Int.fdiv (153 * mp + 2) 5 + 1
  let m := mp + (if mp < 10 then 3 else -9)
  (y + (if m ≤ 2 then 1 else 0), m, d)

def pad2 (n : Int) : String :=
  if n < 10 then "0" ++ toString n else toString n

def pad4 (n : Int) : String :=
  if n < 10 then "000" ++ toString n
  else if n < 100 then "00" ++ toString n
  else if n < 1000 then "0" ++ toString n
  else toString n

/-- `DateTime<Utc>::to_rfc3339` at second resolution: the canonical
`YYYY-MM-DDTHH:MM:SS+00:00` form the code stores in the database. -/
def toRfc3339 (t : Int) : String :=
  let days := Int.fdiv t 86400
  let sod := Int.emod t 86400
  let ymd := civilFromDays days
  pad4 ymd.1 ++ "-" ++ pad2 ymd.2.1 ++ "-" ++ pad2 ymd.2.2 ++ "T"
    ++ pad2 (Int.fdiv sod 3600) ++ ":" ++ pad2 (Int.emod (Int.fdiv sod 60) 60) ++ ":"
    ++ pad2 (Int.emod sod 60) ++ "+00:00"

/-! ## Character-level parsing helpers -/

def readDigitsAux (acc : Nat) : Nat → List Char → Option (Nat × List Char)
  | 0, cs => some (acc, cs)
  | _ + 1, [] => none
  | k + 1, c :: cs =>
      if c.isDigit then readDigitsAux (acc * 10 + (c.toNat - 48)) k cs else none

/-- Read exactly `k` decimal digits, returning their value and the rest. -/
def readDigits (k : Nat) (cs : List Char) : Option (Nat × List Char) :=
  readDigitsAux 0 k cs

def expectChar (ch : Char) : List Char → Option (List Char)
  | c :: cs => if c == ch then some cs else none
  | [] => none

/-- Parse `YYYY-MM-DD` (4-2-2 digits, a real calendar date), returning the
epoch day count and the unconsumed rest of the input. -/
def parseDate (cs : List Char) : Option (Int × List Char) := do
  let (y, cs) ← readDigits 4 cs
  let cs ← expectChar '-' cs
  let (m, cs) ← readDigits 2 cs
  let cs ← expectChar '-' cs
  let (d, cs) ← readDigits 2 cs
  if 1 ≤ m && m ≤ 12 && 1 ≤ d && (d : Int) ≤ daysInMonth y m then
    some (daysFromCivil y m d, cs)
  else
    none

/-- Parse `HH:MM`, returning seconds into the day. -/
def parseHM (cs : List Char) : Option (Int × List Char) := do
  let (hh, cs) ← readDigits 2 cs
  let cs ← expectChar ':' cs
  let (mm, cs) ← readDigits 2 cs
  if hh ≤ 23 && mm ≤ 59 then some ((hh : Int) * 3600 + (mm : Int) * 60, cs) else none

/-- Parse `HH:MM:SS`, returning seconds into the day. -/
def parseHMS (cs : List Char) : Option (Int × List Char) := do
  let (t, cs) ← parseHM cs
  let cs ← expectChar ':' cs
  let (ss, cs) ← readDigits 2 cs
  if ss ≤ 59 then some (t + (ss : Int), cs) else none

/-- Parse an RFC 3339 offset: `Z`, `z`, or `±HH:MM`, in seconds. -/
def parseOffset : List Char → Option (Int × List Char)
  | c :: cs =>
      if c == 'Z' || c == 'z' then some (0, cs)
      else if c == '+' then (parseHM cs).map (fun p => (p.1, p.2))
      else if c == '-' then (parseHM cs).map (fun p => (-p.1, p.2))
      else none
  | [] => none

/-- `DateTime::parse_from_rfc3339` at second resolution: date, a `T`/`t`/space
separator, `HH:MM:SS`, and a numeric or `Z` offset; the whole string must be
consumed.  Returns the UTC instant. -/
def parse_from_rfc3339 (s : String) : Option Int := do
  let (days, cs) ← parseDate s.data
  let cs ← match cs with
    | c :: rest => if c == 'T' || c == 't' || c == ' ' then some rest else none
    | [] => none
  let (tod, cs) ← parseHMS cs
  let (off, cs) ← parseOffset cs
  if cs.isEmpty then some (days * 86400 + tod - off) else none

/-- `NaiveDateTime::parse_from_str(raw, "%Y-%m-%dT%H:%M")`: the result is the
naive (local meaning not yet resolved) second count. -/
def parseLocalMinute (s : String) : Option Int := do
  let (days, cs) ← parseDate s.data
  let cs ← expectChar 'T' cs
  let (tod, cs) ← parseHM cs
  if cs.isEmpty then some (days * 86400 + tod) else none

/-- `NaiveDateTime::parse_from_str(raw, "%Y-%m-%d %H:%M:%S")`. -/
def parseLocalSeconds (s : String) : Option Int := do
  let (days, cs) ← parseDate s.data
  let cs ← expectChar ' ' cs
  let (tod, cs) ← parseHMS cs
  if cs.isEmpty then some (days * 86400 + tod) else none

/-! ## The host environment -/

/-- The capabilities the reminder code takes from its environment:
`resolve` models `Local.from_local_datetime(..).single()` (naive local seconds
to UTC seconds, `none` on a DST gap or overlap), `ofUtc` models
`DateTime<Utc>::with_timezone(&Local)` (total), and `parseTags` models
`serde_json::from_str::<Vec<String>>`. -/
structure Host where
  resolve : Int → Option Int
  ofUtc : Int → Int
  parseTags : String → Option (List String)

/-- A host whose local timezone is UTC and whose tag decoder accepts nothing;
used as a concrete environment in witnesses. -/
def utcHost : Host :=
  { resolve := fun n => some n, ofUtc := fun t => t, parseTags := fun _ => none }

/-- `normalize_datetime` (reminders.rs 264-282): try RFC 3339; then the local
minute grammar resolved through the local timezone; then the local seconds
grammar, likewise resolved; otherwise `none`.  A naive parse whose local
resolution fails falls through to the next attempt, as in the source. -/
def normalize_datetime (h : Host) (raw : String) : Option Int :=
  match parse_from_rfc3339 raw with
  | some t => some t
  | none =>
    match (match parseLocalMinute raw with
           | some n => h.resolve n
           | none => none) with
    | some t => some t
    | none =>
      match parseLocalSeconds raw with
      | some n => h.resolve n
      | none => none

/-! ## Data model -/

/-- A row of the `reminders` table. -/
structure Reminder where
  id : Int
  task_id : Int
  remind_at : String
  triggered : Bool
  created_at : String
deriving DecidableEq, Repr

/-- The fields of a `tasks` row the reminder subsystem reads. -/
structure Task where
  id : Int
  title : String
  due_date : Option String
  priority : String
  tags : String
deriving DecidableEq, Repr

/-- The sqlite error codes this development distinguishes. -/
inductive SqlErrorCode where
  | constraintViolation
  | databaseBusy
  | diskFull
deriving DecidableEq, Repr

/-- A `rusqlite::Error`: either a sqlite-level failure (any code) or some
other library error whose `to_string` is `msg`. -/
inductive RusqliteError where
  | sqliteFailure (code : SqlErrorCode) (msg : String)
  | otherError (msg : String)
deriving DecidableEq, Repr

/-- `rusqlite::Error::to_string()`. -/
def errToString : RusqliteError → String
  | .sqliteFailure _ msg => msg
  | .otherError msg => msg

/-- `pat` occurs as a contiguous run inside the second list. -/
def containsSub (pat : List Char) : List Char → Bool
  | [] => pat.isEmpty
  | c :: cs => pat.isPrefixOf (c :: cs) || containsSub pat cs

/-- ASCII lowercasing of one character (the error displays compared against
`unique` are ASCII). -/
def asciiLower (c : Char) : Char :=
  if 'A' ≤ c ∧ c ≤ 'Z' then Char.ofNat (c.toNat + 32) else c

/-- `is_unique_violation` (reminders.rs 284-295): a sqlite failure whose code
is `ConstraintViolation`, or any error whose lowercased display contains
`unique`. -/
def is_unique_violation (err : RusqliteError) : Bool :=
  (match err with
   | .sqliteFailure code _ => code == .constraintViolation
   | .otherError _ => false)
  || containsSub ("unique".data) (((errToString err).data).map asciiLower)

/-- The error sqlite raises for a `(task_id, remind_at)` unique-index hit. -/
def uniqueIndexError : RusqliteError :=
  .sqliteFailure .constraintViolation
    "UNIQUE constraint failed: reminders.task_id, reminders.remind_at"

/-- The `map_err` closure of `create_reminder` (reminders.rs 64-67): every
sqlite-level failure becomes the duplicate-reminder message; only non-sqlite
errors keep their own display. -/
def createErrMap : RusqliteError → String
  | .sqliteFailure _ _ => "A reminder already exists for this time"
  | .otherError msg => msg

/-- `INSERT INTO reminders (task_id, remind_at) VALUES (..)` against the
unique index on `(task_id, remind_at)`; `newId` and `createdAt` stand for the
autoincrement id and `CURRENT_TIMESTAMP` defaults. -/
def insertReminder (rs : List Reminder) (tid : Int) (s : String)
    (newId : Int) (createdAt : String) : Except RusqliteError (List Reminder) :=
  if rs.any (fun r => r.task_id == tid && r.remind_at == s) then
    .error uniqueIndexError
  else
    .ok (rs ++ [⟨newId, tid, s, false, createdAt⟩])

/-- The first row of the table with a given id (the row, when ids are
distinct). -/
def findById : List Reminder → Int → Option Reminder
  | [], _ => none
  | r :: rs, rid => if r.id == rid then some r else findById rs rid

/-- `UPDATE reminders SET remind_at = ?1, triggered = 0 WHERE id = ?2`
against the unique index.  Updating a row to a key another row already holds
fails; updating an absent id touches nothing and succeeds. -/
def updateRemindAt (rs : List Reminder) (rid : Int) (s : String) :
    Except RusqliteError (List Reminder) :=
  match findById rs rid with
  | none => .ok rs
  | some row =>
      if rs.any (fun r => r.id != rid && r.task_id == row.task_id && r.remind_at == s) then
        .error uniqueIndexError
      else
        .ok (rs.map (fun r =>
          if r.id == rid then { r with remind_at := s, triggered := false } else r))

/-- `UPDATE reminders SET triggered = 1 WHERE id = ?1`. -/
def markTriggered (rs : List Reminder) (rid : Int) : List Reminder :=
  rs.map (fun r => if r.id == rid then { r with triggered := true } else r)

/-! ## Command surface -/

/-- `create_reminder` (reminders.rs 54-70): normalize the raw time (failing
with `Invalid reminder time`), store its RFC 3339 form, and map any sqlite
failure of the insert through `createErrMap`. Returns the command result and
the table afterwards. -/
def create_reminder (h : Host) (rs : List Reminder) (task_id : Int)
    (remind_at : String) (newId : Int) (createdAt : String) :
    Except String Unit × List Reminder :=
  match normalize_datetime h remind_at with
  | none => (.error "Invalid reminder time", rs)
  | some dt =>
      let normalized := toRfc3339 dt
      match insertReminder rs task_id normalized newId createdAt with
      | .error e => (.error (createErrMap e), rs)
      | .ok rs2 => (.ok (), rs2)

/-! ## Recalculation -/

/-- The per-row loop of `recalculate_reminders_for_task` (reminders.rs
127-143), over the snapshot of `(id, remind_at)` pairs read for the task:
skip rows whose stored time no longer normalizes; shift the rest by the
due-date delta; swallow unique-violation failures, propagate any other. -/
def recalcGo (h : Host) (prev_dt new_dt : Int) :
    List (Int × String) → List Reminder → Except RusqliteError (List Reminder)
  | [], rs => .ok rs
  | (id, s) :: rest, rs =>
      match normalize_datetime h s with
      | none => recalcGo h prev_dt new_dt rest rs
      | some rem_dt =>
          let offset := prev_dt - rem_dt
          let new_rem_at := new_dt - offset
          match updateRemindAt rs id (toRfc3339 new_rem_at) with
          | .ok rs2 => recalcGo h prev_dt new_dt rest rs2
          | .error err =>
              if is_unique_violation err then recalcGo h prev_dt new_dt rest rs
              else .error err

/-- `recalculate_reminders_for_task` (reminders.rs 106-146): a no-op unless
both due dates normalize; otherwise run the shift loop over the task's rows. -/
def recalculate_reminders_for_task (h : Host) (rs : List Reminder)
    (task_id : Int) (previous_due_date new_due_date : Option String) :
    Except RusqliteError (List Reminder) :=
  let prev_dt := previous_due_date.bind (fun d => normalize_datetime h d)
  let new_dt := new_due_date.bind (fun d => normalize_datetime h d)
  match prev_dt, new_dt with
  | some prev, some new =>
      let snapshot := (rs.filter (fun r => r.task_id == task_id)).map
        (fun r => (r.id, r.remind_at))
      recalcGo h prev new snapshot rs
  | _, _ => .ok rs

/-! ## The polling worker's scan -/

/-- One row of the scan's `reminders INNER JOIN tasks` query. -/
structure PendingReminderRow where
  id : Int
  task_id : Int
  remind_at : String
  title : String
  due_date : Option String
  priority : String
  tags : String
deriving DecidableEq, Repr

/-- A dispatched notification; `remId` records which reminder row fired it. -/
structure Notif where
  remId : Int
  title : String
  body : String
deriving DecidableEq, Repr

/-- Local `%H:%M` of a naive local second count. -/
def formatHM (n : Int) : String :=
  pad2 (Int.emod (Int.fdiv n 3600) 24) ++ ":" ++ pad2 (Int.emod (Int.fdiv n 60) 60)

/-- The composition part of `send_notification` (reminders.rs 220-262):
title is the task's title; the body joins, in order, the local due time, the
priority, the first decoded tag, and a late marker, with a fixed fallback. -/
def send_notification (h : Host) (title priority tags : String)
    (due_dt : Option Int) (late : Bool) : String × String :=
  let body_parts : List String := []
  let body_parts := match due_dt with
    | some due => body_parts ++ ["Task due at " ++ formatHM (h.ofUtc due)]
    | none => body_parts
  let body_parts := if priority == "" then body_parts
    else body_parts ++ ["Priority: " ++ priority]
  let body_parts := match h.parseTags tags with
    | some decoded => match decoded.head? with
        | some category => body_parts ++ ["Category: " ++ category]
        | none => body_parts
    | none => body_parts
  let body_parts := if late then body_parts ++ ["Late reminder"] else body_parts
  let body := if body_parts.isEmpty then "Task reminder"
    else String.intercalate " • " body_parts
  (title, body)

/-- The scan's join: untriggered reminders, each with its owning task's
fields; a reminder whose task is gone produces no row. -/
def joinPending (rs : List Reminder) (ts : List Task) : List PendingReminderRow :=
  (rs.filter (fun r => r.triggered == false)).filterMap (fun r =>
    (ts.find? (fun t => t.id == r.task_id)).map (fun t =>
      ⟨r.id, r.task_id, r.remind_at, t.title, t.due_date, t.priority, t.tags⟩))

/-- The per-row loop of `check_and_fire` (reminders.rs 190-215): silence rows
whose stored time no longer parses; leave future rows pending; fire and mark
the rest, recording the dispatched notifications. -/
def fireGo (h : Host) (now : Int) :
    List PendingReminderRow → List Reminder → List Notif → List Reminder × List Notif
  | [], rs, ns => (rs, ns)
  | row :: rest, rs, ns =>
      match normalize_datetime h row.remind_at with
      | none => fireGo h now rest (markTriggered rs row.id) ns
      | some remind_at_dt =>
          if now < remind_at_dt then fireGo h now rest rs ns
          else
            let due_dt := row.due_date.bind (fun d => normalize_datetime h d)
            let late := match due_dt with
              | some d => decide (d < now)
              | none => false
            let composed := send_notification h row.title row.priority row.tags due_dt late
            fireGo h now rest (markTriggered rs row.id)
              (ns ++ [⟨row.id, composed.1, composed.2⟩])

/-- `check_and_fire` (reminders.rs 163-218), one scan pass at instant `now`:
returns the table afterwards and the notifications dispatched. -/
def check_and_fire (h : Host) (now : Int) (ts : List Task) (rs : List Reminder) :
    List Reminder × List Notif :=
  fireGo h now (joinPending rs ts) rs []

/-- How many notifications of a dispatch log came from reminder `rid`. -/
def countNotifs (ns : List Notif) (rid : Int) : Nat :=
  (ns.filter (fun n => n.remId == rid)).length

/-- The recalculation step on one row, seen denotationally: shift a row whose
stored time normalizes by the due-date delta and clear its flag; leave a row
whose stored time does not normalize alone. -/
def shiftReminder (h : Host) (prev new : Int) (r : Reminder) : Reminder :=
  match normalize_datetime h r.remind_at with
  | some t => { r with remind_at := toRfc3339 (new - (prev - t)), triggered := false }
  | none => r

/-- The cumulative effect of a collision-free recalculation pass over the
snapshot `snap` on one row: a row whose id carries a snapshot entry is
shifted according to that entry's stored string. -/
def applySnap (h : Host) (prev new : Int) (snap : List (Int × String))
    (r : Reminder) : Reminder :=
  match snap.find? (fun p => p.1 == r.id) with
  | some p =>
      match normalize_datetime h p.2 with
      | some t => { r with remind_at := toRfc3339 (new - (prev - t)), triggered := false }
      | none => r
  | none => r

/-- Modelled from the spec (§4.5 Notification Composer): the present parts in
the documented fixed order — local due time, priority label, first tag as
category, late marker — joined by the separator, with the generic fallback;
the title is the task's title. -/
def composeSpec (h : Host) (title priority tags : String)
    (due_dt : Option Int) (late : Bool) : String × String :=
  let parts : List String :=
    (match due_dt with
     | some d => ["Task due at " ++ formatHM (h.ofUtc d)]
     | none => [])
    ++ (if priority = "" then [] else ["Priority: " ++ priority])
    ++ (match h.parseTags tags with
        | some (c :: _) => ["Category: " ++ c]
        | some [] => []
        | none => [])
    ++ (if late then ["Late reminder"] else [])
  (title, if parts.isEmpty then "Task reminder" else String.intercalate " • " parts)

/-! ## Theorems -/

/-- C7: an input string that fails normalization makes `create_reminder`
return the `Invalid reminder time` failure and leaves the store unchanged. -/
theorem create_reminder_invalid_time (h : Host) (rs : List Reminder)
    (tid : Int) (raw : String) (nid : Int) (cat : String)
    (hnorm : normalize_datetime h raw = none) :
    create_reminder h rs tid raw nid cat = (.error "Invalid reminder time", rs) := by
  unfold create_reminder
  rw [hnorm]

/-- C7 witness: `create_reminder` on the string `not-a-date` rejects and
inserts nothing. -/
theorem create_reminder_invalid_time_witness :
    normalize_datetime utcHost "not-a-date" = none ∧
    create_reminder utcHost [] 5 "not-a-date" 1 "c" = (.error "Invalid reminder time", []) :=
  ⟨by decide, create_reminder_invalid_time utcHost [] 5 "not-a-date" 1 "c" (by decide)⟩

/-- C8: if either due date is absent or fails normalization, recalculation
returns success and leaves every reminder untouched. -/
theorem recalculate_noop_of_unanchored (h : Host) (rs : List Reminder) (k : Int)
    (prevS newS : Option String)
    (hnone : prevS.bind (fun d => normalize_datetime h d) = none
      ∨ newS.bind (fun d => normalize_datetime h d) = none) :
    recalculate_reminders_for_task h rs k prevS newS = .ok rs := by
  unfold recalculate_reminders_for_task
  rcases hnone with hn | hn
  · rw [hn]
  · rw [hn]
    cases prevS.bind (fun d => normalize_datetime h d) <;> rfl

/-- C8 witness: recalculating with an absent previous due date and an
unparseable new one changes nothing. -/
theorem recalculate_noop_of_unanchored_witness :
    ((none : Option String).bind (fun d => normalize_datetime utcHost d) = none
      ∨ (some "soon").bind (fun d => normalize_datetime utcHost d) = none) ∧
    recalculate_reminders_for_task utcHost
        [⟨1, 5, "1970-01-01T04:00:00+00:00", true, "c"⟩] 5 none (some "soon") =
      .ok [⟨1, 5, "1970-01-01T04:00:00+00:00", true, "c"⟩] :=
  ⟨Or.inl rfl,
   recalculate_noop_of_unanchored utcHost
     [⟨1, 5, "1970-01-01T04:00:00+00:00", true, "c"⟩] 5 none (some "soon")
     (Or.inl rfl)⟩

/-- C9: the notification composer is the pure function the spec describes —
title is the task's title, and the body joins the present parts in the fixed
order (local due time, priority, first tag, late marker) with the generic
fallback when no part applies. -/
theorem send_notification_matches_spec (h : Host) (title priority tags : String)
    (due_dt : Option Int) (late : Bool) :
    send_notification h title priority tags due_dt late =
      composeSpec h title priority tags due_dt late := by
  unfold send_notification composeSpec
  cases due_dt <;> rcases hpt : h.parseTags tags with _ | (_ | ⟨c, rest⟩) <;>
    by_cases hp : priority = "" <;> cases late <;>
    simp [hpt, hp, List.head?, String.intercalate]

/-- C3 counterexample: the `map_err` of `create_reminder` gives a sqlite
`Busy` failure — not a uniqueness violation — the very same message as a
duplicate reminder, so the duplicate message is not distinct from the
messages of other sqlite-level storage failures. -/
theorem createErrMap_not_distinct :
    createErrMap (.sqliteFailure .databaseBusy "database is locked")
        = createErrMap uniqueIndexError
      ∧ is_unique_violation (.sqliteFailure .databaseBusy "database is locked") = false
      ∧ createErrMap uniqueIndexError = "A reminder already exists for this time" := by
  decide

/-- C3 (amended): when the raw time normalizes, `create_reminder` fails with
the duplicate-reminder message exactly when a reminder of the same task with
the same normalized time is already stored, and otherwise appends a row with
`triggered = false`.  (The message, however, is shared by every sqlite-level
failure — see the counterexample.) -/
theorem create_reminder_duplicate (h : Host) (rs : List Reminder) (tid : Int)
    (raw : String) (nid : Int) (cat : String) (t : Int)
    (hnorm : normalize_datetime h raw = some t) :
    ((create_reminder h rs tid raw nid cat).1
        = .error "A reminder already exists for this time"
      ↔ ∃ r ∈ rs, r.task_id = tid ∧ r.remind_at = toRfc3339 t)
    ∧ ((∀ r ∈ rs, ¬(r.task_id = tid ∧ r.remind_at = toRfc3339 t)) →
        create_reminder h rs tid raw nid cat =
          (.ok (), rs ++ [⟨nid, tid, toRfc3339 t, false, cat⟩])) := by
  have hany : (rs.any (fun r => r.task_id == tid && r.remind_at == toRfc3339 t) = true)
      ↔ ∃ r ∈ rs, r.task_id = tid ∧ r.remind_at = toRfc3339 t := by
    simp [List.any_eq_true]
  unfold create_reminder insertReminder
  rw [hnorm]
  cases ha : rs.any (fun r => r.task_id == tid && r.remind_at == toRfc3339 t) with
  | true =>
      simp only [ha, if_true, uniqueIndexError, createErrMap]
      refine ⟨iff_of_true trivial (hany.mp ha), fun hno => absurd (hany.mp ha) ?_⟩
      exact fun hex => hex.elim (fun q hq => hno q hq.1 hq.2)
  | false =>
      simp only [ha, if_false]
      refine ⟨iff_of_false (by simp) (fun hex => absurd (hany.mpr hex) (by simp [ha])),
        fun _ => rfl⟩

/-- C3 witness: with one reminder for task 5 at 04:00 UTC stored, creating a
second one whose raw string normalizes to the same instant is rejected with
the duplicate message. -/
theorem create_reminder_duplicate_witness :
    normalize_datetime utcHost "1970-01-01T04:00:00+00:00" = some 14400 ∧
    ((create_reminder utcHost [⟨1, 5, "1970-01-01T04:00:00+00:00", false, "c"⟩]
        5 "1970-01-01T04:00:00+00:00" 2 "c").1
      = .error "A reminder already exists for this time") :=
  ⟨by decide,
   (create_reminder_duplicate utcHost
      [⟨1, 5, "1970-01-01T04:00:00+00:00", false, "c"⟩]
      5 "1970-01-01T04:00:00+00:00" 2 "c" 14400 (by decide)).1.mpr
     ⟨⟨1, 5, "1970-01-01T04:00:00+00:00", false, "c"⟩, by simp, by decide⟩⟩

/-- A successful `expectChar` exposes the expected head. -/
theorem expectChar_eq (ch : Char) (cs rest : List Char)
    (hp : expectChar ch cs = some rest) : cs = ch :: rest := by
  cases cs with
  | nil => simp [expectChar] at hp
  | cons c cs2 =>
      by_cases hc : c = ch
      · subst hc
        simp [expectChar] at hp
        rw [hp]
      · simp [expectChar, hc] at hp

/-- A successful minute-grammar parse pins the separator after the date. -/
theorem parseLocalMinute_decomp (s : String) (n : Int)
    (hp : parseLocalMinute s = some n) :
    ∃ d rest rest2, parseDate s.data = some (d, rest)
      ∧ expectChar 'T' rest = some rest2 := by
  unfold parseLocalMinute at hp
  simp only [Option.bind_eq_bind, Option.bind_eq_some] at hp
  obtain ⟨⟨d, rest⟩, h1, hp⟩ := hp
  obtain ⟨rest2, h2, hp⟩ := hp
  exact ⟨d, rest, rest2, h1, h2⟩

/-- A successful seconds-grammar parse pins the separator after the date. -/
theorem parseLocalSeconds_decomp (s : String) (n : Int)
    (hp : parseLocalSeconds s = some n) :
    ∃ d rest rest2, parseDate s.data = some (d, rest)
      ∧ expectChar ' ' rest = some rest2 := by
  unfold parseLocalSeconds at hp
  simp only [Option.bind_eq_bind, Option.bind_eq_some] at hp
  obtain ⟨⟨d, rest⟩, h1, hp⟩ := hp
  obtain ⟨rest2, h2, hp⟩ := hp
  exact ⟨d, rest, rest2, h1, h2⟩

/-- The two naive grammars are disjoint: after the (fixed-width) date one
demands `T`, the other a space. -/
theorem localMinute_localSeconds_disjoint (s : String) :
    parseLocalMinute s = none ∨ parseLocalSeconds s = none := by
  cases hm : parseLocalMinute s with
  | none => exact Or.inl rfl
  | some n =>
      cases hs : parseLocalSeconds s with
      | none => exact Or.inr rfl
      | some m =>
          exfalso
          obtain ⟨d, rest, rest2, h1, h2⟩ := parseLocalMinute_decomp s n hm
          obtain ⟨d2, rest3, rest4, h3, h4⟩ := parseLocalSeconds_decomp s m hs
          rw [h1] at h3
          have h6 := Option.some.inj h3
          have hdr : rest = rest3 := congrArg Prod.snd h6
          have e1 := expectChar_eq 'T' rest rest2 h2
          have e2 := expectChar_eq ' ' rest3 rest4 h4
          rw [← hdr, e1] at e2
          injection e2 with hch _
          exact absurd hch (by decide)

/-- C4: `normalize_datetime` succeeds exactly when one of the three grammars
applies — offset-aware RFC 3339, the local minute grammar, the local seconds
grammar, the naive ones filtered through the host's local-time resolution
(so a DST gap or overlap yields `none`) — and the grammars are consulted in
that fixed order, every other string giving `none`. -/
theorem normalize_datetime_grammar (h : Host) (raw : String) :
    ((normalize_datetime h raw).isSome ↔
      ((parse_from_rfc3339 raw).isSome
        ∨ ((parseLocalMinute raw).bind h.resolve).isSome
        ∨ ((parseLocalSeconds raw).bind h.resolve).isSome))
    ∧ (∀ t, parse_from_rfc3339 raw = some t → normalize_datetime h raw = some t)
    ∧ (∀ n, parse_from_rfc3339 raw = none → parseLocalMinute raw = some n →
        normalize_datetime h raw = h.resolve n)
    ∧ (∀ n, parse_from_rfc3339 raw = none → parseLocalMinute raw = none →
        parseLocalSeconds raw = some n → normalize_datetime h raw = h.resolve n) := by
  have hdisj := localMinute_localSeconds_disjoint raw
  unfold normalize_datetime
  cases hr : parse_from_rfc3339 raw with
  | some t => simp
  | none =>
      cases hm : parseLocalMinute raw with
      | some n =>
          cases hres : h.resolve n with
          | some t => simp [hres]
          | none =>
              have hs : parseLocalSeconds raw = none := by
                rcases hdisj with hd | hd
                · rw [hm] at hd
                  exact absurd hd (by simp)
                · exact hd
              simp [hres, hs]
      | none =>
          cases hs : parseLocalSeconds raw with
          | some m => cases hres : h.resolve m <;> simp [hres]
          | none => simp

/-- C4 witness: a string of the second grammar normalizes on a concrete
host. -/
theorem normalize_datetime_grammar_witness :
    (normalize_datetime utcHost "2025-03-10T09:00").isSome :=
  (normalize_datetime_grammar utcHost "2025-03-10T09:00").1.mpr
    (Or.inr (Or.inl (by decide)))

/-! ### Lemmas about table lookup and the scan loop -/

/-- A found row carries the id it was looked up by. -/
theorem findById_some_id (rs : List Reminder) (j : Int) (r : Reminder)
    (hf : findById rs j = some r) : r.id = j := by
  induction rs with
  | nil => simp [findById] at hf
  | cons a l ih =>
      by_cases ha : a.id = j
      · rw [findById, if_pos (by simp [ha])] at hf
        rw [← Option.some.inj hf, ha]
      · rw [findById, if_neg (by simp [ha])] at hf
        exact ih hf

/-- Lookup commutes with mapping an id-preserving row transformer. -/
theorem findById_map (f : Reminder → Reminder) (hf : ∀ r, (f r).id = r.id)
    (rs : List Reminder) (j : Int) :
    findById (rs.map f) j = (findById rs j).map f := by
  induction rs with
  | nil => rfl
  | cons a l ih =>
      rw [List.map_cons, findById, findById, hf a]
      by_cases ha : a.id = j
      · rw [if_pos (by simp [ha]), if_pos (by simp [ha])]
        rfl
      · rw [if_neg (by simp [ha]), if_neg (by simp [ha])]
        exact ih

/-- `markTriggered` on one id leaves every other row's lookup unchanged. -/
theorem markTriggered_findById_ne (rs : List Reminder) (rid j : Int)
    (hne : rid ≠ j) :
    findById (markTriggered rs rid) j = findById rs j := by
  rw [markTriggered,
    findById_map _ (fun r => by by_cases hr : r.id = rid <;> simp [hr])]
  cases hf : findById rs j with
  | none => rfl
  | some r =>
      have hid : r.id = j := findById_some_id rs j r hf
      have : ¬ r.id = rid := by rw [hid]; exact fun he => hne he.symm
      simp [this]

/-- `markTriggered` sets exactly the addressed row's flag. -/
theorem markTriggered_findById_self (rs : List Reminder) (rid : Int)
    (r : Reminder) (hf : findById rs rid = some r) :
    findById (markTriggered rs rid) rid = some { r with triggered := true } := by
  rw [markTriggered,
    findById_map _ (fun r => by by_cases hr : r.id = rid <;> simp [hr]), hf]
  have hid : r.id = rid := findById_some_id rs rid r hf
  simp [hid]

/-- `markTriggered` preserves the id column. -/
theorem markTriggered_ids (rs : List Reminder) (rid : Int) :
    (markTriggered rs rid).map (fun r => r.id) = rs.map (fun r => r.id) := by
  rw [markTriggered, List.map_map]
  apply List.map_congr_left
  intro r _
  by_cases hr : r.id = rid <;> simp [hr]

/-- The scan loop preserves the id column. -/
theorem fireGo_ids (h : Host) (now : Int) :
    ∀ (rows : List PendingReminderRow) (rs : List Reminder) (ns : List Notif),
    ((fireGo h now rows rs ns).1).map (fun r => r.id) = rs.map (fun r => r.id) := by
  intro rows
  induction rows with
  | nil => intro rs ns; rfl
  | cons p rest ih =>
      intro rs ns
      cases hn : normalize_datetime h p.remind_at with
      | none =>
          simp only [fireGo, hn]
          rw [ih, markTriggered_ids]
      | some t =>
          simp only [fireGo, hn]
          by_cases hlt : now < t
          · rw [if_pos hlt]
            exact ih rs ns
          · rw [if_neg hlt]
            rw [ih, markTriggered_ids]

theorem countNotifs_append (ns ms : List Notif) (j : Int) :
    countNotifs (ns ++ ms) j = countNotifs ns j + countNotifs ms j := by
  simp [countNotifs, List.filter_append]

theorem countNotifs_single (n : Notif) (j : Int) :
    countNotifs [n] j = if n.remId = j then 1 else 0 := by
  by_cases hn : n.remId = j
  · simp [countNotifs, hn]
  · have hb : (n.remId == j) = false := by simp [hn]
    simp [countNotifs, List.filter, hb, hn]

/-- Rows whose ids are all different from `j` neither touch row `j` nor
dispatch for it. -/
theorem fireGo_frame (h : Host) (now : Int) :
    ∀ (rows : List PendingReminderRow) (rs : List Reminder) (ns : List Notif)
      (j : Int), (∀ p ∈ rows, p.id ≠ j) →
    findById (fireGo h now rows rs ns).1 j = findById rs j
    ∧ countNotifs (fireGo h now rows rs ns).2 j = countNotifs ns j := by
  intro rows
  induction rows with
  | nil => intro rs ns j _; exact ⟨rfl, rfl⟩
  | cons p rest ih =>
      intro rs ns j hav
      have hpj : p.id ≠ j := hav p (by simp)
      have havr : ∀ q ∈ rest, q.id ≠ j := fun q hq => hav q (List.mem_cons_of_mem _ hq)
      cases hn : normalize_datetime h p.remind_at with
      | none =>
          simp only [fireGo, hn]
          obtain ⟨h1, h2⟩ := ih (markTriggered rs p.id) ns j havr
          exact ⟨h1.trans (markTriggered_findById_ne rs p.id j hpj), h2⟩
      | some t =>
          simp only [fireGo, hn]
          by_cases hlt : now < t
          · rw [if_pos hlt]
            exact ih rs ns j havr
          · rw [if_neg hlt]
            obtain ⟨h1, h2⟩ := ih (markTriggered rs p.id) (ns ++ [⟨p.id, _, _⟩]) j havr
            refine ⟨h1.trans (markTriggered_findById_ne rs p.id j hpj), h2.trans ?_⟩
            rw [countNotifs_append, countNotifs_single, if_neg hpj]
            exact Nat.add_zero _

/-- The scan loop over a concatenation runs the pieces in sequence. -/
theorem fireGo_append (h : Host) (now : Int) :
    ∀ (xs ys : List PendingReminderRow) (rs : List Reminder) (ns : List Notif),
    fireGo h now (xs ++ ys) rs ns =
      fireGo h now ys (fireGo h now xs rs ns).1 (fireGo h now xs rs ns).2 := by
  intro xs
  induction xs with
  | nil => intro ys rs ns; rfl
  | cons p rest ih =>
      intro ys rs ns
      rw [List.cons_append]
      cases hn : normalize_datetime h p.remind_at with
      | none =>
          simp only [fireGo, hn]
          exact ih ys (markTriggered rs p.id) ns
      | some t =>
          simp only [fireGo, hn]
          by_cases hlt : now < t
          · rw [if_pos hlt, if_pos hlt]
            exact ih ys rs ns
          · rw [if_neg hlt, if_neg hlt]
            exact ih ys (markTriggered rs p.id) _

theorem joinPending_append (a b : List Reminder) (ts : List Task) :
    joinPending (a ++ b) ts = joinPending a ts ++ joinPending b ts := by
  simp [joinPending, List.filter_append, List.filterMap_append]

/-- The join step on one untriggered reminder whose task is found. -/
theorem joinPending_cons_found (r : Reminder) (rs : List Reminder)
    (ts : List Task) (tk : Task) (htrig : r.triggered = false)
    (hfind : ts.find? (fun t => t.id == r.task_id) = some tk) :
    joinPending (r :: rs) ts =
      ⟨r.id, r.task_id, r.remind_at, tk.title, tk.due_date, tk.priority, tk.tags⟩
        :: joinPending rs ts := by
  rw [joinPending, joinPending, List.filter_cons, if_pos (by simp [htrig]),
    List.filterMap_cons, hfind]
  rfl

/-- Every joined row comes from an untriggered reminder with its id. -/
theorem mem_joinPending (p : PendingReminderRow) (rs : List Reminder)
    (ts : List Task) (hp : p ∈ joinPending rs ts) :
    ∃ r ∈ rs, r.triggered = false ∧ p.id = r.id := by
  unfold joinPending at hp
  rw [List.mem_filterMap] at hp
  obtain ⟨r, hr, hmap⟩ := hp
  have hrf := List.mem_filter.mp hr
  cases hfind : ts.find? (fun t => t.id == r.task_id) with
  | none => rw [hfind] at hmap; simp at hmap
  | some tk =>
      rw [hfind] at hmap
      refine ⟨r, hrf.1, by simpa using hrf.2, ?_⟩
      rw [← Option.some.inj hmap]

/-- A member of a duplicate-free table is what lookup by its id returns. -/
theorem findById_of_mem_nodup (rs : List Reminder) (r : Reminder)
    (hnd : (rs.map (fun x => x.id)).Nodup) (hr : r ∈ rs) :
    findById rs r.id = some r := by
  induction rs with
  | nil => cases hr
  | cons a l ih =>
      rw [List.map_cons, List.nodup_cons] at hnd
      rcases List.mem_cons.mp hr with rfl | hmem
      · rw [findById, if_pos (by simp)]
      · have hane : ¬ a.id = r.id :=
          fun he => hnd.1 (he ▸ List.mem_map_of_mem (fun x => x.id) hmem)
        rw [findById, if_neg (by simp [hane])]
        exact ih hnd.2 hmem

/-- A triggered row contributes no row to a later scan's join. -/
theorem not_in_joinPending_of_triggered (rs : List Reminder) (ts : List Task)
    (j : Int) (r : Reminder) (hnd : (rs.map (fun x => x.id)).Nodup)
    (hf : findById rs j = some r) (ht : r.triggered = true) :
    ∀ p ∈ joinPending rs ts, p.id ≠ j := by
  intro p hp hpj
  obtain ⟨rr, hrr, hrrt, hpid⟩ := mem_joinPending p rs ts hp
  have hfr : findById rs rr.id = some rr := findById_of_mem_nodup rs rr hnd hrr
  rw [hpid] at hpj
  rw [hpj, hf] at hfr
  rw [← Option.some.inj hfr] at hrrt
  rw [ht] at hrrt
  cases hrrt

/-- C2: a past-due untriggered reminder whose task exists is dispatched
exactly once by one scan pass, its flag is set, and a later scan pass does
not dispatch it again. -/
theorem scan_fires_once (h : Host) (now now2 : Int) (ts : List Task)
    (rs : List Reminder) (r : Reminder) (tk : Task) (t : Int)
    (hnd : (rs.map (fun x => x.id)).Nodup)
    (hr : r ∈ rs) (htrig : r.triggered = false)
    (hfind : ts.find? (fun x => x.id == r.task_id) = some tk)
    (hnorm : normalize_datetime h r.remind_at = some t)
    (hpast : t < now) :
    countNotifs (check_and_fire h now ts rs).2 r.id = 1
    ∧ findById (check_and_fire h now ts rs).1 r.id = some { r with triggered := true }
    ∧ countNotifs (check_and_fire h now2 ts (check_and_fire h now ts rs).1).2 r.id = 0 := by
  have hnd0 := hnd
  obtain ⟨a, b, rfl⟩ := List.append_of_mem hr
  rw [List.map_append, List.map_cons] at hnd
  obtain ⟨hna, hnb, hdisj⟩ := List.nodup_append.mp hnd
  have hia : ∀ x ∈ a, x.id ≠ r.id := fun x hx he =>
    hdisj (List.mem_map_of_mem (fun q => q.id) hx) (he ▸ List.mem_cons_self _ _)
  have hib : ∀ x ∈ b, x.id ≠ r.id := fun x hx he =>
    (List.nodup_cons.mp hnb).1 (he ▸ List.mem_map_of_mem (fun q => q.id) hx)
  have hja : ∀ p ∈ joinPending a ts, p.id ≠ r.id := by
    intro p hp
    obtain ⟨rr, hrr, _, hpid⟩ := mem_joinPending p a ts hp
    rw [hpid]
    exact hia rr hrr
  have hjb : ∀ p ∈ joinPending b ts, p.id ≠ r.id := by
    intro p hp
    obtain ⟨rr, hrr, _, hpid⟩ := mem_joinPending p b ts hp
    rw [hpid]
    exact hib rr hrr
  have hsplit : joinPending (a ++ r :: b) ts =
      joinPending a ts ++
        (⟨r.id, r.task_id, r.remind_at, tk.title, tk.due_date, tk.priority, tk.tags⟩
          :: joinPending b ts) :=
    by rw [joinPending_append, joinPending_cons_found r b ts tk htrig hfind]
  have hfr : findById (a ++ r :: b) r.id = some r := findById_of_mem_nodup _ r hnd0 hr
  -- pass one, pieces
  obtain ⟨hS1f, hS1c⟩ := fireGo_frame h now (joinPending a ts) (a ++ r :: b) [] r.id hja
  have hstep :
      check_and_fire h now ts (a ++ r :: b) =
        fireGo h now (joinPending b ts)
          (markTriggered (fireGo h now (joinPending a ts) (a ++ r :: b) []).1 r.id)
          ((fireGo h now (joinPending a ts) (a ++ r :: b) []).2 ++
            [⟨r.id,
              (send_notification h tk.title tk.priority tk.tags
                  (tk.due_date.bind fun d => normalize_datetime h d)
                  (match tk.due_date.bind fun d => normalize_datetime h d with
                   | some d => decide (d < now)
                   | none => false)).1,
              (send_notification h tk.title tk.priority tk.tags
                  (tk.due_date.bind fun d => normalize_datetime h d)
                  (match tk.due_date.bind fun d => normalize_datetime h d with
                   | some d => decide (d < now)
                   | none => false)).2⟩]) := by
    rw [check_and_fire, hsplit, fireGo_append]
    simp only [fireGo, hnorm]
    rw [if_neg (not_lt.mpr (le_of_lt hpast))]
  obtain ⟨hFf, hFc⟩ := fireGo_frame h now (joinPending b ts)
    (markTriggered (fireGo h now (joinPending a ts) (a ++ r :: b) []).1 r.id)
    ((fireGo h now (joinPending a ts) (a ++ r :: b) []).2 ++
      [⟨r.id, _, _⟩]) r.id hjb
  have hone : countNotifs (check_and_fire h now ts (a ++ r :: b)).2 r.id = 1 := by
    rw [hstep]
    rw [hFc, countNotifs_append, hS1c, countNotifs_single, if_pos rfl]
    rfl
  have hmarked : findById (check_and_fire h now ts (a ++ r :: b)).1 r.id
      = some { r with triggered := true } := by
    rw [hstep]
    rw [hFf]
    exact markTriggered_findById_self _ r.id r (hS1f.trans hfr)
  refine ⟨hone, hmarked, ?_⟩
  -- pass two
  have hids : ((check_and_fire h now ts (a ++ r :: b)).1.map (fun x => x.id)).Nodup := by
    rw [check_and_fire, fireGo_ids]
    exact hnd0
  have havoid := not_in_joinPending_of_triggered
    (check_and_fire h now ts (a ++ r :: b)).1 ts r.id { r with triggered := true }
    hids hmarked rfl
  obtain ⟨_, h2c⟩ := fireGo_frame h now2
    (joinPending (check_and_fire h now ts (a ++ r :: b)).1 ts)
    (check_and_fire h now ts (a ++ r :: b)).1 [] r.id havoid
  rw [check_and_fire] at h2c ⊢
  exact h2c

/-- C2 witness: a reminder due at 04:00 UTC scanned at a later instant fires
exactly once. -/
theorem scan_fires_once_witness :
    (14400 : Int) < 20000 ∧
    countNotifs (check_and_fire utcHost 20000 [⟨5, "Submit report", none, "high", "x"⟩]
        [⟨1, 5, "1970-01-01T04:00:00+00:00", false, "c"⟩]).2 1 = 1 :=
  ⟨by decide,
   (scan_fires_once utcHost 20000 20030 [⟨5, "Submit report", none, "high", "x"⟩]
      [⟨1, 5, "1970-01-01T04:00:00+00:00", false, "c"⟩]
      ⟨1, 5, "1970-01-01T04:00:00+00:00", false, "c"⟩
      ⟨5, "Submit report", none, "high", "x"⟩ 14400
      (by decide) (by decide) (by decide) (by decide) (by decide) (by decide)).1⟩

/-- C6: an untriggered reminder whose stored time no longer normalizes is
force-marked triggered by the scan without any dispatch, and never revisited
by a later scan. -/
theorem scan_silences_corrupt (h : Host) (now now2 : Int) (ts : List Task)
    (rs : List Reminder) (r : Reminder) (tk : Task)
    (hnd : (rs.map (fun x => x.id)).Nodup)
    (hr : r ∈ rs) (htrig : r.triggered = false)
    (hfind : ts.find? (fun x => x.id == r.task_id) = some tk)
    (hnorm : normalize_datetime h r.remind_at = none) :
    countNotifs (check_and_fire h now ts rs).2 r.id = 0
    ∧ findById (check_and_fire h now ts rs).1 r.id = some { r with triggered := true }
    ∧ countNotifs (check_and_fire h now2 ts (check_and_fire h now ts rs).1).2 r.id = 0 := by
  have hnd0 := hnd
  obtain ⟨a, b, rfl⟩ := List.append_of_mem hr
  rw [List.map_append, List.map_cons] at hnd
  obtain ⟨hna, hnb, hdisj⟩ := List.nodup_append.mp hnd
  have hia : ∀ x ∈ a, x.id ≠ r.id := fun x hx he =>
    hdisj (List.mem_map_of_mem (fun q => q.id) hx) (he ▸ List.mem_cons_self _ _)
  have hib : ∀ x ∈ b, x.id ≠ r.id := fun x hx he =>
    (List.nodup_cons.mp hnb).1 (he ▸ List.mem_map_of_mem (fun q => q.id) hx)
  have hja : ∀ p ∈ joinPending a ts, p.id ≠ r.id := by
    intro p hp
    obtain ⟨rr, hrr, _, hpid⟩ := mem_joinPending p a ts hp
    rw [hpid]
    exact hia rr hrr
  have hjb : ∀ p ∈ joinPending b ts, p.id ≠ r.id := by
    intro p hp
    obtain ⟨rr, hrr, _, hpid⟩ := mem_joinPending p b ts hp
    rw [hpid]
    exact hib rr hrr
  have hsplit : joinPending (a ++ r :: b) ts =
      joinPending a ts ++
        (⟨r.id, r.task_id, r.remind_at, tk.title, tk.due_date, tk.priority, tk.tags⟩
          :: joinPending b ts) :=
    by rw [joinPending_append, joinPending_cons_found r b ts tk htrig hfind]
  have hfr : findById (a ++ r :: b) r.id = some r := findById_of_mem_nodup _ r hnd0 hr
  obtain ⟨hS1f, hS1c⟩ := fireGo_frame h now (joinPending a ts) (a ++ r :: b) [] r.id hja
  have hstep :
      check_and_fire h now ts (a ++ r :: b) =
        fireGo h now (joinPending b ts)
          (markTriggered (fireGo h now (joinPending a ts) (a ++ r :: b) []).1 r.id)
          (fireGo h now (joinPending a ts) (a ++ r :: b) []).2 := by
    rw [check_and_fire, hsplit, fireGo_append]
    simp only [fireGo, hnorm]
  obtain ⟨hFf, hFc⟩ := fireGo_frame h now (joinPending b ts)
    (markTriggered (fireGo h now (joinPending a ts) (a ++ r :: b) []).1 r.id)
    (fireGo h now (joinPending a ts) (a ++ r :: b) []).2 r.id hjb
  have hzero : countNotifs (check_and_fire h now ts (a ++ r :: b)).2 r.id = 0 := by
    rw [hstep, hFc, hS1c]
    rfl
  have hmarked : findById (check_and_fire h now ts (a ++ r :: b)).1 r.id
      = some { r with triggered := true } := by
    rw [hstep, hFf]
    exact markTriggered_findById_self _ r.id r (hS1f.trans hfr)
  refine ⟨hzero, hmarked, ?_⟩
  have hids : ((check_and_fire h now ts (a ++ r :: b)).1.map (fun x => x.id)).Nodup := by
    rw [check_and_fire, fireGo_ids]
    exact hnd0
  have havoid := not_in_joinPending_of_triggered
    (check_and_fire h now ts (a ++ r :: b)).1 ts r.id { r with triggered := true }
    hids hmarked rfl
  obtain ⟨_, h2c⟩ := fireGo_frame h now2
    (joinPending (check_and_fire h now ts (a ++ r :: b)).1 ts)
    (check_and_fire h now ts (a ++ r :: b)).1 [] r.id havoid
  rw [check_and_fire] at h2c ⊢
  exact h2c

/-- C6 witness: a reminder whose stored time is the unparseable `garbage` is
silenced — no dispatch, flag set — by a concrete scan. -/
theorem scan_silences_corrupt_witness :
    normalize_datetime utcHost "garbage" = none ∧
    countNotifs (check_and_fire utcHost 20000 [⟨5, "Submit report", none, "high", "x"⟩]
        [⟨1, 5, "garbage", false, "c"⟩]).2 1 = 0 :=
  ⟨by decide,
   (scan_silences_corrupt utcHost 20000 20030 [⟨5, "Submit report", none, "high", "x"⟩]
      [⟨1, 5, "garbage", false, "c"⟩]
      ⟨1, 5, "garbage", false, "c"⟩
      ⟨5, "Submit report", none, "high", "x"⟩
      (by decide) (by decide) (by decide) (by decide) (by decide)).1⟩

/-! ### Lemmas about recalculation -/

theorem shiftReminder_id (h : Host) (prev new : Int) (r : Reminder) :
    (shiftReminder h prev new r).id = r.id := by
  unfold shiftReminder
  cases normalize_datetime h r.remind_at <;> rfl

theorem applySnap_id (h : Host) (prev new : Int) (S : List (Int × String))
    (r : Reminder) : (applySnap h prev new S r).id = r.id := by
  unfold applySnap
  cases hf : S.find? (fun p => p.1 == r.id) with
  | none => rfl
  | some p => cases hn : normalize_datetime h p.2 <;> simp [hn]

/-- A row none of whose snapshot entries address it is untouched. -/
theorem applySnap_not_mem (h : Host) (prev new : Int) (S : List (Int × String))
    (r : Reminder) (hnm : ∀ p ∈ S, p.1 ≠ r.id) :
    applySnap h prev new S r = r := by
  unfold applySnap
  rw [List.find?_eq_none.mpr (fun p hp => by simp [hnm p hp])]

/-- In a duplicate-free snapshot, lookup by first component finds the pair. -/
theorem find?_fst_of_mem_nodup (S : List (Int × String)) (i : Int) (s : String)
    (hnd : (S.map Prod.fst).Nodup) (hm : (i, s) ∈ S) :
    S.find? (fun p => p.1 == i) = some (i, s) := by
  induction S with
  | nil => cases hm
  | cons a l ih =>
      rw [List.map_cons, List.nodup_cons] at hnd
      rcases List.mem_cons.mp hm with rfl | hmem
      · rw [List.find?_cons_of_pos _ (by simp)]
      · have hane : ¬ a.1 = i := fun he =>
          hnd.1 (he ▸ List.mem_map_of_mem Prod.fst hmem)
        rw [List.find?_cons_of_neg _ (by simp [hane])]
        exact ih hnd.2 hmem

/-- The snapshot entry of a row shifts it like `shiftReminder`. -/
theorem applySnap_found (h : Host) (prev new : Int) (S : List (Int × String))
    (r : Reminder) (hnd : (S.map Prod.fst).Nodup) (hm : (r.id, r.remind_at) ∈ S) :
    applySnap h prev new S r = shiftReminder h prev new r := by
  unfold applySnap shiftReminder
  rw [find?_fst_of_mem_nodup S r.id r.remind_at hnd hm]

/-- Two rows of a duplicate-free table with the same id are the same row. -/
theorem mem_id_inj (rs : List Reminder) (q r : Reminder)
    (hnd : (rs.map (fun x => x.id)).Nodup) (hq : q ∈ rs) (hr : r ∈ rs)
    (hid : q.id = r.id) : q = r := by
  have h1 := findById_of_mem_nodup rs q hnd hq
  have h2 := findById_of_mem_nodup rs r hnd hr
  rw [hid, h2] at h1
  exact (Option.some.inj h1).symm

/-- What `applySnap` can do to a row: leave it, or shift it according to its
own stored string when the snapshot was read off a duplicate-free table
containing the row. -/
theorem applySnap_cases (h : Host) (prev new : Int) (S : List (Int × String))
    (r : Reminder) :
    applySnap h prev new S r = r
    ∨ ∃ s t, (r.id, s) ∈ S ∧ normalize_datetime h s = some t
        ∧ applySnap h prev new S r =
            { r with remind_at := toRfc3339 (new - (prev - t)), triggered := false } := by
  unfold applySnap
  cases hf : S.find? (fun p => p.1 == r.id) with
  | none => exact Or.inl rfl
  | some p =>
      obtain ⟨i, s⟩ := p
      have hpm : (i, s) ∈ S := List.mem_of_find?_eq_some hf
      have hpi : i = r.id := by
        have := List.find?_some hf
        simpa using this
      cases hn : normalize_datetime h s with
      | none => exact Or.inl (by simp [hn])
      | some t =>
          refine Or.inr ⟨s, t, ?_, hn, by simp [hn]⟩
          rw [← hpi]
          exact hpm

/-- The recalculation loop over a concatenation runs the pieces in
sequence. -/
theorem recalcGo_append (h : Host) (prev new : Int) :
    ∀ (xs ys : List (Int × String)) (cur : List Reminder),
    recalcGo h prev new (xs ++ ys) cur =
      (match recalcGo h prev new xs cur with
       | .ok cur2 => recalcGo h prev new ys cur2
       | .error e => .error e) := by
  intro xs
  induction xs with
  | nil => intro ys cur; rfl
  | cons p rest ih =>
      intro ys cur
      obtain ⟨i, s⟩ := p
      rw [List.cons_append]
      cases hn : normalize_datetime h s with
      | none =>
          simp only [recalcGo, hn]
          exact ih ys cur
      | some t =>
          simp only [recalcGo, hn]
          cases hu : updateRemindAt cur i (toRfc3339 (new - (prev - t))) with
          | ok cur2 => exact ih ys cur2
          | error e =>
              dsimp only
              by_cases hv : is_unique_violation e = true
              · rw [if_pos hv, if_pos hv]
                exact ih ys cur
              · rw [if_neg hv, if_neg hv]

/-- Shifting by the head entry then applying the unread tail equals applying
the whole snapshot, when the head's id does not reappear in the tail. -/
theorem applySnap_cons_eq (h : Host) (prev new : Int) (i0 : Int) (s0 : String)
    (t0 : Int) (rest : List (Int × String))
    (hn0 : normalize_datetime h s0 = some t0)
    (hi0nm : i0 ∉ rest.map Prod.fst) (q : Reminder) :
    applySnap h prev new ((i0, s0) :: rest) q =
      applySnap h prev new rest
        (if q.id == i0
         then { q with remind_at := toRfc3339 (new - (prev - t0)), triggered := false }
         else q) := by
  by_cases hqi : q.id = i0
  · have hfc : ((i0, s0) :: rest).find? (fun p => p.1 == q.id) = some (i0, s0) :=
      List.find?_cons_of_pos _ (by simp [hqi])
    have hL : applySnap h prev new ((i0, s0) :: rest) q
        = { q with remind_at := toRfc3339 (new - (prev - t0)), triggered := false } := by
      simp only [applySnap, hfc, hn0]
    have hq2 : (if q.id == i0
        then { q with remind_at := toRfc3339 (new - (prev - t0)), triggered := false }
        else q) = { q with remind_at := toRfc3339 (new - (prev - t0)), triggered := false } := by
      simp [hqi]
    rw [hL, hq2]
    refine (applySnap_not_mem h prev new rest _ ?_).symm
    intro p hp he
    exact hi0nm ((by simpa [hqi] using he : p.1 = i0) ▸ List.mem_map_of_mem Prod.fst hp)
  · have hfc : ((i0, s0) :: rest).find? (fun p => p.1 == q.id)
        = rest.find? (fun p => p.1 == q.id) :=
      List.find?_cons_of_neg _ (by simp; exact fun he => hqi he.symm)
    have hq2 : (if q.id == i0
        then { q with remind_at := toRfc3339 (new - (prev - t0)), triggered := false }
        else q) = q := by simp [hqi]
    rw [hq2]
    simp only [applySnap, hfc]

/-- A collision-free recalculation pass: when every snapshot entry
normalizes, addresses a distinct live row holding that very string, and its
shifted target clashes neither with any other row's stored string nor (by
pairwise distinctness) with another entry's shifted string, the loop
succeeds and shifts every addressed row. -/
theorem recalcGo_all_fresh (h : Host) (prev new : Int) :
    ∀ (snap : List (Int × String)) (cur : List Reminder),
      (snap.map Prod.fst).Nodup →
      (cur.map (fun r => r.id)).Nodup →
      (∀ p ∈ snap, ∃ t, normalize_datetime h p.2 = some t ∧
        ∃ r ∈ cur, r.id = p.1 ∧ r.remind_at = p.2 ∧
          ∀ q ∈ cur, q.id ≠ p.1 → q.task_id = r.task_id →
            q.remind_at ≠ toRfc3339 (new - (prev - t))) →
      snap.Pairwise (fun p q => ∀ t u, normalize_datetime h p.2 = some t →
        normalize_datetime h q.2 = some u →
        toRfc3339 (new - (prev - t)) ≠ toRfc3339 (new - (prev - u))) →
      recalcGo h prev new snap cur = .ok (cur.map (applySnap h prev new snap)) := by
  intro snap
  induction snap with
  | nil =>
      intro cur _ _ _ _
      simp only [recalcGo]
      have h1 : cur.map (applySnap h prev new []) = cur.map (fun r => r) :=
        List.map_congr_left (fun a _ => rfl)
      rw [h1, List.map_id']
  | cons p0 rest ih =>
      obtain ⟨i0, s0⟩ := p0
      intro cur hsnapnd hcurnd hinv hpair
      obtain ⟨t0, hn0, r0, hr0mem, hr0id, hr0rem, hfresh0⟩ :=
        hinv (i0, s0) (List.mem_cons_self _ _)
      replace hn0 : normalize_datetime h s0 = some t0 := hn0
      replace hr0id : r0.id = i0 := hr0id
      replace hr0rem : r0.remind_at = s0 := hr0rem
      replace hfresh0 : ∀ q ∈ cur, q.id ≠ i0 → q.task_id = r0.task_id →
          q.remind_at ≠ toRfc3339 (new - (prev - t0)) := hfresh0
      rw [List.map_cons, List.nodup_cons] at hsnapnd
      obtain ⟨hi0nm, hrestnd⟩ := hsnapnd
      rw [List.pairwise_cons] at hpair
      obtain ⟨hpair0, hpairrest⟩ := hpair
      have hfind : findById cur i0 = some r0 := by
        rw [← hr0id]
        exact findById_of_mem_nodup cur r0 hcurnd hr0mem
      have hany : (cur.any (fun q =>
          q.id != i0 && q.task_id == r0.task_id
            && q.remind_at == toRfc3339 (new - (prev - t0)))) = false := by
        rw [List.any_eq_false]
        intro q hq
        by_cases hqi : q.id = i0
        · simp [hqi]
        · by_cases hqt : q.task_id = r0.task_id
          · have := hfresh0 q hq hqi hqt
            simp [hqi, hqt, this]
          · simp [hqi, hqt]
      have hupd : updateRemindAt cur i0 (toRfc3339 (new - (prev - t0)))
          = .ok (cur.map (fun q => if q.id == i0
              then { q with remind_at := toRfc3339 (new - (prev - t0)), triggered := false }
              else q)) := by
        unfold updateRemindAt
        rw [hfind]
        dsimp only
        rw [hany]
        simp
      simp only [recalcGo, hn0, hupd]
      have hupdid : ∀ q : Reminder,
          ((fun q : Reminder => if q.id == i0
            then { q with remind_at := toRfc3339 (new - (prev - t0)), triggered := false }
            else q) q).id = q.id := by
        intro q
        by_cases hq : q.id = i0 <;> simp [hq]
      have hcur2nd : ((cur.map (fun q : Reminder => if q.id == i0
          then { q with remind_at := toRfc3339 (new - (prev - t0)), triggered := false }
          else q)).map (fun r => r.id)).Nodup := by
        rw [List.map_map]
        rw [show ((fun r : Reminder => r.id) ∘ (fun q : Reminder => if q.id == i0
          then { q with remind_at := toRfc3339 (new - (prev - t0)), triggered := false }
          else q)) = fun r : Reminder => r.id from funext fun q => hupdid q]
        exact hcurnd
      have hinv2 : ∀ p ∈ rest, ∃ t, normalize_datetime h p.2 = some t ∧
          ∃ r ∈ cur.map (fun q : Reminder => if q.id == i0
              then { q with remind_at := toRfc3339 (new - (prev - t0)), triggered := false }
              else q), r.id = p.1 ∧ r.remind_at = p.2 ∧
            ∀ q ∈ cur.map (fun q : Reminder => if q.id == i0
              then { q with remind_at := toRfc3339 (new - (prev - t0)), triggered := false }
              else q), q.id ≠ p.1 → q.task_id = r.task_id →
              q.remind_at ≠ toRfc3339 (new - (prev - t)) := by
        intro p hp
        obtain ⟨tp, hnp, rp, hrpmem, hrpid, hrprem, hfreshp⟩ :=
          hinv p (List.mem_cons_of_mem _ hp)
        have hpne : p.1 ≠ i0 := by
          intro he
          apply hi0nm
          rw [← he]
          exact List.mem_map.mpr ⟨p, hp, rfl⟩
        have hrpi0 : ¬ rp.id = i0 := by rw [hrpid]; exact hpne
        have hrpfix : (if rp.id == i0
            then { rp with remind_at := toRfc3339 (new - (prev - t0)), triggered := false }
            else rp) = rp := by simp [hrpi0]
        refine ⟨tp, hnp, rp, ?_, hrpid, hrprem, ?_⟩
        · rw [← hrpfix]
          exact List.mem_map_of_mem _ hrpmem
        · intro q2 hq2 hq2id hq2task
          obtain ⟨q, hq, rfl⟩ := List.mem_map.mp hq2
          by_cases hqi : q.id = i0
          · have hq2eq : (if q.id == i0
                then { q with remind_at := toRfc3339 (new - (prev - t0)), triggered := false }
                else q) = { q with remind_at := toRfc3339 (new - (prev - t0)), triggered := false } := by
              simp [hqi]
            rw [hq2eq]
            exact hpair0 p hp t0 tp hn0 hnp
          · have hq2eq : (if q.id == i0
                then { q with remind_at := toRfc3339 (new - (prev - t0)), triggered := false }
                else q) = q := by simp [hqi]
            rw [hq2eq] at hq2id hq2task ⊢
            exact hfreshp q hq hq2id hq2task
      rw [ih (cur.map (fun q : Reminder => if q.id == i0
          then { q with remind_at := toRfc3339 (new - (prev - t0)), triggered := false }
          else q)) hrestnd hcur2nd hinv2 hpairrest]
      congr 1
      rw [List.map_map]
      apply List.map_congr_left
      intro q _
      exact (applySnap_cons_eq h prev new i0 s0 t0 rest hn0 hi0nm q).symm

/-- C1 (amended): when both due dates normalize, recalculation succeeds and
rewrites every reminder of the task whose stored time normalizes and whose
shifted target collides with no other stored or shifted time of the task to
`newDue - (prevDue - remind_at)` with `triggered` reset to `false`; rows of
other tasks are untouched (and a non-normalizing row is left alone, as
`shiftReminder` shows). -/
theorem recalculate_shifts_all (h : Host) (rs : List Reminder) (k : Int)
    (prevS newS : String) (prev new : Int)
    (hnd : (rs.map (fun x => x.id)).Nodup)
    (hprev : normalize_datetime h prevS = some prev)
    (hnew : normalize_datetime h newS = some new)
    (hnorm : ∀ r ∈ rs, r.task_id = k → ∃ t, normalize_datetime h r.remind_at = some t)
    (hfresh : ∀ r ∈ rs, r.task_id = k → ∀ t, normalize_datetime h r.remind_at = some t →
      ∀ q ∈ rs, q.id ≠ r.id → q.task_id = k →
        q.remind_at ≠ toRfc3339 (new - (prev - t)))
    (hpair : ∀ r ∈ rs, ∀ q ∈ rs, r.task_id = k → q.task_id = k → r.id ≠ q.id →
      ∀ t u, normalize_datetime h r.remind_at = some t →
        normalize_datetime h q.remind_at = some u →
        toRfc3339 (new - (prev - t)) ≠ toRfc3339 (new - (prev - u))) :
    recalculate_reminders_for_task h rs k (some prevS) (some newS) =
      .ok (rs.map (fun r => if r.task_id = k then shiftReminder h prev new r else r)) := by
  have hred : recalculate_reminders_for_task h rs k (some prevS) (some newS)
      = recalcGo h prev new
          ((rs.filter (fun r => r.task_id == k)).map (fun r => (r.id, r.remind_at))) rs := by
    unfold recalculate_reminders_for_task
    rw [show Option.bind (some prevS) (fun d => normalize_datetime h d) = some prev from hprev]
    rw [show Option.bind (some newS) (fun d => normalize_datetime h d) = some new from hnew]
  have hfilnd : ((rs.filter (fun r => r.task_id == k)).map (fun x => x.id)).Nodup :=
    List.Nodup.sublist (List.Sublist.map _ (List.filter_sublist rs)) hnd
  have hsnapfst : ((rs.filter (fun r => r.task_id == k)).map
        (fun r => (r.id, r.remind_at))).map Prod.fst
      = (rs.filter (fun r => r.task_id == k)).map (fun x => x.id) := by
    rw [List.map_map]
    exact List.map_congr_left (fun a _ => rfl)
  have hsnapnd : (((rs.filter (fun r => r.task_id == k)).map
      (fun r => (r.id, r.remind_at))).map Prod.fst).Nodup := by
    rw [hsnapfst]
    exact hfilnd
  have hrspair : rs.Pairwise (fun a b => a.id ≠ b.id) := by
    have hnd2 := hnd
    rw [List.Nodup, List.pairwise_map] at hnd2
    exact hnd2
  have hinvS : ∀ p ∈ (rs.filter (fun r => r.task_id == k)).map
      (fun r => (r.id, r.remind_at)), ∃ t, normalize_datetime h p.2 = some t ∧
      ∃ r ∈ rs, r.id = p.1 ∧ r.remind_at = p.2 ∧
        ∀ q ∈ rs, q.id ≠ p.1 → q.task_id = r.task_id →
          q.remind_at ≠ toRfc3339 (new - (prev - t)) := by
    intro p hp
    obtain ⟨r, hrfil, rfl⟩ := List.mem_map.mp hp
    have hrmem : r ∈ rs := (List.mem_filter.mp hrfil).1
    have hrtask : r.task_id = k := by simpa using (List.mem_filter.mp hrfil).2
    obtain ⟨t, ht⟩ := hnorm r hrmem hrtask
    refine ⟨t, ht, r, hrmem, rfl, rfl, ?_⟩
    intro q hq hqid hqtask
    exact hfresh r hrmem hrtask t ht q hq hqid (hqtask.trans hrtask)
  have hpairS : ((rs.filter (fun r => r.task_id == k)).map
      (fun r => (r.id, r.remind_at))).Pairwise
        (fun p q => ∀ t u, normalize_datetime h p.2 = some t →
          normalize_datetime h q.2 = some u →
          toRfc3339 (new - (prev - t)) ≠ toRfc3339 (new - (prev - u))) := by
    rw [List.pairwise_map]
    refine List.Pairwise.imp_of_mem ?_
      (List.Pairwise.filter _ hrspair)
    intro a b ha hb hne t u hta htb
    exact hpair a (List.mem_filter.mp ha).1 b (List.mem_filter.mp hb).1
      (by simpa using (List.mem_filter.mp ha).2)
      (by simpa using (List.mem_filter.mp hb).2) hne t u hta htb
  rw [hred, recalcGo_all_fresh h prev new _ rs hsnapnd hnd hinvS hpairS]
  congr 1
  apply List.map_congr_left
  intro r hr
  by_cases hrt : r.task_id = k
  · have hmem : (r.id, r.remind_at) ∈ (rs.filter (fun r => r.task_id == k)).map
        (fun r => (r.id, r.remind_at)) :=
      List.mem_map.mpr ⟨r, List.mem_filter.mpr ⟨hr, by simp [hrt]⟩, rfl⟩
    rw [if_pos hrt]
    exact applySnap_found h prev new _ r hsnapnd hmem
  · rw [if_neg hrt]
    apply applySnap_not_mem
    intro p hp he
    obtain ⟨q, hqfil, rfl⟩ := List.mem_map.mp hp
    have hq : q ∈ rs := (List.mem_filter.mp hqfil).1
    have hqt : q.task_id = k := by simpa using (List.mem_filter.mp hqfil).2
    have hqr : q = r := mem_id_inj rs q r hnd hq hr he
    exact hrt (hqr ▸ hqt)

/-- C10: when the previous and new due dates normalize to the same instant —
as on every task update that keeps a valid due date unchanged — every
reminder of the task stored in canonical form keeps its time but has its
triggered flag reset to false, so an already-fired reminder becomes eligible
to fire again. -/
theorem recalculate_same_due_resets (h : Host) (rs : List Reminder) (k : Int)
    (prevS newS : String) (d : Int)
    (hnd : (rs.map (fun x => x.id)).Nodup)
    (hprev : normalize_datetime h prevS = some d)
    (hnew : normalize_datetime h newS = some d)
    (hkey : ∀ r ∈ rs, ∀ q ∈ rs, r.task_id = k → q.task_id = k → r.id ≠ q.id →
      r.remind_at ≠ q.remind_at)
    (hcanon : ∀ r ∈ rs, r.task_id = k →
      ∃ t, r.remind_at = toRfc3339 t ∧ normalize_datetime h r.remind_at = some t) :
    recalculate_reminders_for_task h rs k (some prevS) (some newS) =
      .ok (rs.map (fun r => if r.task_id = k
            then { r with triggered := false } else r)) := by
  have hback : ∀ r ∈ rs, r.task_id = k → ∀ t, normalize_datetime h r.remind_at = some t →
      toRfc3339 (d - (d - t)) = r.remind_at := by
    intro r hr hrt t ht
    obtain ⟨t2, hc1, hc2⟩ := hcanon r hr hrt
    rw [ht] at hc2
    have ht2 : t = t2 := Option.some.inj hc2
    have harith : d - (d - t) = t := by omega
    rw [harith, ht2, ← hc1]
  have hnorm : ∀ r ∈ rs, r.task_id = k →
      ∃ t, normalize_datetime h r.remind_at = some t := by
    intro r hr hrt
    obtain ⟨t, _, hc2⟩ := hcanon r hr hrt
    exact ⟨t, hc2⟩
  have hfresh : ∀ r ∈ rs, r.task_id = k →
      ∀ t, normalize_datetime h r.remind_at = some t →
      ∀ q ∈ rs, q.id ≠ r.id → q.task_id = k →
        q.remind_at ≠ toRfc3339 (d - (d - t)) := by
    intro r hr hrt t ht q hq hqid hqt
    rw [hback r hr hrt t ht]
    exact hkey q hq r hr hqt hrt hqid
  have hpair : ∀ r ∈ rs, ∀ q ∈ rs, r.task_id = k → q.task_id = k → r.id ≠ q.id →
      ∀ t u, normalize_datetime h r.remind_at = some t →
        normalize_datetime h q.remind_at = some u →
        toRfc3339 (d - (d - t)) ≠ toRfc3339 (d - (d - u)) := by
    intro r hr q hq hrt hqt hne t u hta htb
    rw [hback r hr hrt t hta, hback q hq hqt u htb]
    exact hkey r hr q hq hrt hqt hne
  rw [recalculate_shifts_all h rs k prevS newS d d hnd hprev hnew hnorm hfresh hpair]
  congr 1
  apply List.map_congr_left
  intro r hr
  by_cases hrt : r.task_id = k
  · rw [if_pos hrt, if_pos hrt]
    obtain ⟨t, hc1, hc2⟩ := hcanon r hr hrt
    unfold shiftReminder
    rw [hc2]
    have harith : d - (d - t) = t := by omega
    dsimp only
    rw [harith, ← hc1]
  · rw [if_neg hrt, if_neg hrt]

/-- C5: when exactly one reminder's shifted time collides — its target equals
the stored time of a later reminder of the same task — that single update is
skipped silently: the colliding row keeps its stored time and flag, every
other reminder of the task (all normalizing, their shifts fresh) is still
updated, rows of other tasks are untouched, and the whole recalculation
returns success. -/
theorem recalculate_collision_skips_one (h : Host) (rs : List Reminder) (k : Int)
    (prevS newS : String) (prev new : Int) (rc rv : Reminder)
    (a b : List Reminder) (tc : Int)
    (hnd : (rs.map (fun x => x.id)).Nodup)
    (hprev : normalize_datetime h prevS = some prev)
    (hnew : normalize_datetime h newS = some new)
    (hsplitf : rs.filter (fun r => r.task_id == k) = a ++ rc :: b)
    (hvb : rv ∈ b)
    (hct : normalize_datetime h rc.remind_at = some tc)
    (hcol : rv.remind_at = toRfc3339 (new - (prev - tc)))
    (hnorm : ∀ r ∈ rs, r.task_id = k → r.id ≠ rc.id →
      ∃ t, normalize_datetime h r.remind_at = some t)
    (hfresh : ∀ r ∈ rs, r.task_id = k → r.id ≠ rc.id →
      ∀ t, normalize_datetime h r.remind_at = some t →
      ∀ q ∈ rs, q.id ≠ r.id → q.task_id = k →
        q.remind_at ≠ toRfc3339 (new - (prev - t)))
    (hpair : ∀ r ∈ rs, ∀ q ∈ rs, r.task_id = k → q.task_id = k → r.id ≠ q.id →
      ∀ t u, normalize_datetime h r.remind_at = some t →
        normalize_datetime h q.remind_at = some u →
        toRfc3339 (new - (prev - t)) ≠ toRfc3339 (new - (prev - u))) :
    recalculate_reminders_for_task h rs k (some prevS) (some newS) =
      .ok (rs.map (fun r => if r.id = rc.id then r
            else if r.task_id = k then shiftReminder h prev new r else r)) := by
  -- membership and distinctness bookkeeping
  have hmemF : ∀ x, x ∈ rs.filter (fun r => r.task_id == k) → x ∈ rs ∧ x.task_id = k := by
    intro x hx
    exact ⟨(List.mem_filter.mp hx).1, by simpa using (List.mem_filter.mp hx).2⟩
  have hamem : ∀ x ∈ a, x ∈ rs ∧ x.task_id = k := fun x hx =>
    hmemF x (hsplitf ▸ List.mem_append_left _ hx)
  have hbmem : ∀ x ∈ b, x ∈ rs ∧ x.task_id = k := fun x hx =>
    hmemF x (hsplitf ▸ List.mem_append_right _ (List.mem_cons_of_mem _ hx))
  have hrcF : rc ∈ rs ∧ rc.task_id = k :=
    hmemF rc (hsplitf ▸ List.mem_append_right _ (List.mem_cons_self _ _))
  have hrvmem : rv ∈ rs := (hbmem rv hvb).1
  have hrvk : rv.task_id = k := (hbmem rv hvb).2
  have hFnd : ((rs.filter (fun r => r.task_id == k)).map (fun x => x.id)).Nodup :=
    List.Nodup.sublist (List.Sublist.map _ (List.filter_sublist rs)) hnd
  rw [hsplitf, List.map_append, List.map_cons] at hFnd
  obtain ⟨hand, hnb, hdisj⟩ := List.nodup_append.mp hFnd
  have hia : ∀ x ∈ a, x.id ≠ rc.id := fun x hx he =>
    hdisj (List.mem_map_of_mem (fun q => q.id) hx) (he ▸ List.mem_cons_self _ _)
  have hib : ∀ x ∈ b, x.id ≠ rc.id := fun x hx he =>
    (List.nodup_cons.mp hnb).1 (he ▸ List.mem_map_of_mem (fun q => q.id) hx)
  have hbnd : (b.map (fun x => x.id)).Nodup := (List.nodup_cons.mp hnb).2
  have hdab : ∀ x ∈ a, ∀ y ∈ b, x.id ≠ y.id := fun x hx y hy he =>
    hdisj (List.mem_map_of_mem (fun q => q.id) hx)
      (List.mem_cons_of_mem _ (he ▸ List.mem_map_of_mem (fun q => q.id) hy))
  have hrvne : rv.id ≠ rc.id := hib rv hvb
  -- pairwise shift-freshness on the task's rows
  have hrspair : rs.Pairwise (fun x y => x.id ≠ y.id) := by
    have hnd2 := hnd
    rw [List.Nodup, List.pairwise_map] at hnd2
    exact hnd2
  have hFpair : (rs.filter (fun r => r.task_id == k)).Pairwise
      (fun x y => ∀ t u, normalize_datetime h x.remind_at = some t →
        normalize_datetime h y.remind_at = some u →
        toRfc3339 (new - (prev - t)) ≠ toRfc3339 (new - (prev - u))) := by
    refine List.Pairwise.imp_of_mem ?_ (List.Pairwise.filter _ hrspair)
    intro x y hx hy hne t u hta htb
    exact hpair x (List.mem_filter.mp hx).1 y (List.mem_filter.mp hy).1
      (by simpa using (List.mem_filter.mp hx).2)
      (by simpa using (List.mem_filter.mp hy).2) hne t u hta htb
  rw [hsplitf] at hFpair
  obtain ⟨hpa, hpcons, _⟩ := List.pairwise_append.mp hFpair
  have hpb := (List.pairwise_cons.mp hpcons).2
  -- reduce the command to the loop over the split snapshot
  have hred : recalculate_reminders_for_task h rs k (some prevS) (some newS)
      = recalcGo h prev new
          (a.map (fun r => (r.id, r.remind_at))
            ++ (rc.id, rc.remind_at) :: b.map (fun r => (r.id, r.remind_at))) rs := by
    unfold recalculate_reminders_for_task
    rw [show Option.bind (some prevS) (fun d => normalize_datetime h d) = some prev from hprev]
    rw [show Option.bind (some newS) (fun d => normalize_datetime h d) = some new from hnew]
    rw [hsplitf, List.map_append, List.map_cons]
  -- phase A: the rows before the colliding one all update
  have hAnd : ((a.map (fun r => (r.id, r.remind_at))).map Prod.fst).Nodup := by
    rw [show (a.map (fun r => (r.id, r.remind_at))).map Prod.fst
        = a.map (fun x => x.id) from by
      rw [List.map_map]; exact List.map_congr_left (fun x _ => rfl)]
    exact hand
  have hinvA : ∀ p ∈ a.map (fun r => (r.id, r.remind_at)),
      ∃ t, normalize_datetime h p.2 = some t ∧
      ∃ r ∈ rs, r.id = p.1 ∧ r.remind_at = p.2 ∧
        ∀ q ∈ rs, q.id ≠ p.1 → q.task_id = r.task_id →
          q.remind_at ≠ toRfc3339 (new - (prev - t)) := by
    intro p hp
    obtain ⟨r, hra, rfl⟩ := List.mem_map.mp hp
    obtain ⟨hrmem, hrk⟩ := hamem r hra
    obtain ⟨t, ht⟩ := hnorm r hrmem hrk (hia r hra)
    refine ⟨t, ht, r, hrmem, rfl, rfl, ?_⟩
    intro q hq hqid hqtask
    exact hfresh r hrmem hrk (hia r hra) t ht q hq hqid (hqtask.trans hrk)
  have hpairA : (a.map (fun r => (r.id, r.remind_at))).Pairwise
      (fun p q => ∀ t u, normalize_datetime h p.2 = some t →
        normalize_datetime h q.2 = some u →
        toRfc3339 (new - (prev - t)) ≠ toRfc3339 (new - (prev - u))) :=
    List.pairwise_map.mpr hpa
  have hphaseA := recalcGo_all_fresh h prev new
    (a.map (fun r => (r.id, r.remind_at))) rs hAnd hnd hinvA hpairA
  -- phase B: the colliding row's update errors and is skipped
  have hAnotr : ∀ (r : Reminder), (∀ x ∈ a, x.id ≠ r.id) →
      applySnap h prev new (a.map (fun q => (q.id, q.remind_at))) r = r := by
    intro r hx
    apply applySnap_not_mem
    intro p hp
    obtain ⟨x, hxa, rfl⟩ := List.mem_map.mp hp
    exact hx x hxa
  have happrc : applySnap h prev new (a.map (fun q => (q.id, q.remind_at))) rc = rc :=
    hAnotr rc (hia)
  have happrv : applySnap h prev new (a.map (fun q => (q.id, q.remind_at))) rv = rv :=
    hAnotr rv (fun x hx => hdab x hx rv hvb)
  have hfind1 : findById (rs.map (applySnap h prev new
      (a.map (fun q => (q.id, q.remind_at))))) rc.id = some rc := by
    rw [findById_map _ (applySnap_id h prev new _) rs rc.id,
      findById_of_mem_nodup rs rc hnd hrcF.1, Option.map_some', happrc]
  have hany1 : ((rs.map (applySnap h prev new
      (a.map (fun q => (q.id, q.remind_at))))).any (fun q =>
        q.id != rc.id && q.task_id == rc.task_id
          && q.remind_at == toRfc3339 (new - (prev - tc)))) = true := by
    rw [List.any_eq_true]
    refine ⟨rv, List.mem_map.mpr ⟨rv, hrvmem, happrv⟩, ?_⟩
    have hrvt : rv.task_id = rc.task_id := hrvk.trans hrcF.2.symm
    simp [hrvne, hrvt, hcol]
  have hupd1 : updateRemindAt (rs.map (applySnap h prev new
        (a.map (fun q => (q.id, q.remind_at))))) rc.id
        (toRfc3339 (new - (prev - tc))) = .error uniqueIndexError := by
    unfold updateRemindAt
    rw [hfind1]
    dsimp only
    rw [hany1]
    simp
  -- phase C: the rows after the colliding one all update
  have hBnd : ((b.map (fun r => (r.id, r.remind_at))).map Prod.fst).Nodup := by
    rw [show (b.map (fun r => (r.id, r.remind_at))).map Prod.fst
        = b.map (fun x => x.id) from by
      rw [List.map_map]; exact List.map_congr_left (fun x _ => rfl)]
    exact hbnd
  have hcur1nd : ((rs.map (applySnap h prev new
      (a.map (fun q => (q.id, q.remind_at))))).map (fun r => r.id)).Nodup := by
    rw [List.map_map]
    rw [show ((fun r : Reminder => r.id) ∘ applySnap h prev new
        (a.map (fun q => (q.id, q.remind_at)))) = fun r : Reminder => r.id from
      funext fun r => applySnap_id h prev new _ r]
    exact hnd
  have hinvB : ∀ p ∈ b.map (fun r => (r.id, r.remind_at)),
      ∃ t, normalize_datetime h p.2 = some t ∧
      ∃ r ∈ rs.map (applySnap h prev new (a.map (fun q => (q.id, q.remind_at)))),
        r.id = p.1 ∧ r.remind_at = p.2 ∧
        ∀ q ∈ rs.map (applySnap h prev new (a.map (fun q => (q.id, q.remind_at)))),
          q.id ≠ p.1 → q.task_id = r.task_id →
          q.remind_at ≠ toRfc3339 (new - (prev - t)) := by
    intro p hp
    obtain ⟨r, hrb, rfl⟩ := List.mem_map.mp hp
    obtain ⟨hrmem, hrk⟩ := hbmem r hrb
    have hrne : r.id ≠ rc.id := hib r hrb
    obtain ⟨t, ht⟩ := hnorm r hrmem hrk hrne
    have happr : applySnap h prev new (a.map (fun q => (q.id, q.remind_at))) r = r :=
      hAnotr r (fun x hx => hdab x hx r hrb)
    refine ⟨t, ht, r, List.mem_map.mpr ⟨r, hrmem, happr⟩, rfl, rfl, ?_⟩
    intro q2 hq2 hq2id hq2task
    obtain ⟨q, hqmem, rfl⟩ := List.mem_map.mp hq2
    rcases applySnap_cases h prev new (a.map (fun q => (q.id, q.remind_at))) q with
      hcase | ⟨s, t2, hsA, hns, hcase⟩
    · rw [hcase] at hq2id hq2task ⊢
      exact hfresh r hrmem hrk hrne t ht q hqmem hq2id (hq2task.trans hrk)
    · obtain ⟨x, hxa, hxe⟩ := List.mem_map.mp hsA
      have hxid : x.id = q.id := congrArg Prod.fst hxe
      have hxq : x = q := mem_id_inj rs x q hnd (hamem x hxa).1 hqmem hxid
      have hqk : q.task_id = k := hxq ▸ (hamem x hxa).2
      have hsq : s = q.remind_at := by
        have h2 : x.remind_at = s := congrArg Prod.snd hxe
        rw [← h2, hxq]
      rw [hcase] at hq2id ⊢
      have hqid : q.id ≠ r.id := by simpa using hq2id
      rw [hsq] at hns
      exact hpair q hqmem r hrmem hqk hrk hqid t2 t hns ht
  have hpairB : (b.map (fun r => (r.id, r.remind_at))).Pairwise
      (fun p q => ∀ t u, normalize_datetime h p.2 = some t →
        normalize_datetime h q.2 = some u →
        toRfc3339 (new - (prev - t)) ≠ toRfc3339 (new - (prev - u))) :=
    List.pairwise_map.mpr hpb
  have hphaseC := recalcGo_all_fresh h prev new
    (b.map (fun r => (r.id, r.remind_at)))
    (rs.map (applySnap h prev new (a.map (fun q => (q.id, q.remind_at)))))
    hBnd hcur1nd hinvB hpairB
  -- assemble the run
  rw [hred, recalcGo_append, hphaseA]
  dsimp only
  simp only [recalcGo, hct, hupd1]
  rw [if_pos (by decide : is_unique_violation uniqueIndexError = true)]
  rw [hphaseC]
  -- pointwise description of the final table
  congr 1
  rw [List.map_map]
  apply List.map_congr_left
  intro r hr
  show applySnap h prev new (b.map (fun q => (q.id, q.remind_at)))
      (applySnap h prev new (a.map (fun q => (q.id, q.remind_at))) r)
    = if r.id = rc.id then r else if r.task_id = k then shiftReminder h prev new r else r
  have hBnot : ∀ (x : Reminder), (∀ y ∈ b, y.id ≠ x.id) →
      applySnap h prev new (b.map (fun q => (q.id, q.remind_at))) x = x := by
    intro x hx
    apply applySnap_not_mem
    intro p hp
    obtain ⟨y, hyb, rfl⟩ := List.mem_map.mp hp
    exact hx y hyb
  by_cases hri : r.id = rc.id
  · have hrrc : r = rc := mem_id_inj rs r rc hnd hr hrcF.1 hri
    rw [if_pos hri, hrrc, happrc]
    exact hBnot rc (fun y hy => hib y hy)
  · rw [if_neg hri]
    by_cases hrt : r.task_id = k
    · rw [if_pos hrt]
      have hrF : r ∈ a ++ rc :: b := by
        rw [← hsplitf]
        exact List.mem_filter.mpr ⟨hr, by simp [hrt]⟩
      rcases List.mem_append.mp hrF with hra | hrcb
      · -- processed in phase A, untouched afterwards
        have hAfound : applySnap h prev new (a.map (fun q => (q.id, q.remind_at))) r
            = shiftReminder h prev new r :=
          applySnap_found h prev new _ r hAnd (List.mem_map.mpr ⟨r, hra, rfl⟩)
        rw [hAfound]
        refine hBnot (shiftReminder h prev new r) ?_
        intro y hy
        rw [shiftReminder_id]
        exact fun he => hdab r hra y hy he.symm
      · rcases List.mem_cons.mp hrcb with hrc | hrb
        · exact absurd (congrArg Reminder.id hrc) hri
        · -- untouched in phase A, processed in phase C
          have hA : applySnap h prev new (a.map (fun q => (q.id, q.remind_at))) r = r :=
            hAnotr r (fun x hx => hdab x hx r hrb)
          rw [hA]
          exact applySnap_found h prev new _ r hBnd (List.mem_map.mpr ⟨r, hrb, rfl⟩)
    · rw [if_neg hrt]
      have hnotF : ∀ x, x ∈ rs.filter (fun q => q.task_id == k) → x.id ≠ r.id := by
        intro x hx he
        obtain ⟨hxmem, hxk⟩ := hmemF x hx
        exact hrt ((mem_id_inj rs x r hnd hxmem hr he) ▸ hxk)
      have hA : applySnap h prev new (a.map (fun q => (q.id, q.remind_at))) r = r :=
        hAnotr r (fun x hx => hnotF x (hsplitf ▸ List.mem_append_left _ hx))
      rw [hA]
      exact hBnot r (fun y hy => hnotF y
        (hsplitf ▸ List.mem_append_right _ (List.mem_cons_of_mem _ hy)))

/-! ### Concrete normalization facts shared by the witnesses -/

theorem norm_0400 :
    normalize_datetime utcHost "1970-01-01T04:00:00+00:00" = some 14400 := by decide

theorem norm_0600 :
    normalize_datetime utcHost "1970-01-01T06:00:00+00:00" = some 21600 := by decide

theorem norm_1000 :
    normalize_datetime utcHost "1970-01-01T10:00:00+00:00" = some 36000 := by decide

theorem norm_1200 :
    normalize_datetime utcHost "1970-01-01T12:00:00+00:00" = some 43200 := by decide

theorem norm_1300 :
    normalize_datetime utcHost "1970-01-01T13:00:00+00:00" = some 46800 := by decide

/-- C1 counterexample: both due dates normalize (10:00 → 12:00 UTC), yet the
reminder at 04:00 — whose shifted target 06:00 is already held by the other
reminder of the task — is NOT updated: it keeps remind_at 04:00 and its
triggered flag stays true, while the claim demands 06:00 and false. -/
theorem recalculate_not_all_updated :
    (recalculate_reminders_for_task utcHost
        [⟨1, 5, "1970-01-01T04:00:00+00:00", true, "c"⟩,
         ⟨2, 5, "1970-01-01T06:00:00+00:00", false, "c"⟩]
        5 (some "1970-01-01T10:00:00+00:00") (some "1970-01-01T12:00:00+00:00")).toOption
      = some [⟨1, 5, "1970-01-01T04:00:00+00:00", true, "c"⟩,
              ⟨2, 5, "1970-01-01T08:00:00+00:00", false, "c"⟩]
    ∧ normalize_datetime utcHost "1970-01-01T10:00:00+00:00" = some 36000
    ∧ normalize_datetime utcHost "1970-01-01T12:00:00+00:00" = some 43200
    ∧ normalize_datetime utcHost "1970-01-01T04:00:00+00:00" = some 14400
    ∧ toRfc3339 (43200 - (36000 - 14400)) = "1970-01-01T06:00:00+00:00"
    ∧ ("1970-01-01T04:00:00+00:00" : String) ≠ "1970-01-01T06:00:00+00:00" := by
  decide

/-- C1 witness (for the amended statement): with no collisions, both
reminders of the task are shifted by the due-date delta and their flags
cleared. -/
theorem recalculate_shifts_all_witness :
    normalize_datetime utcHost "1970-01-01T10:00:00+00:00" = some 36000 ∧
    recalculate_reminders_for_task utcHost
        [⟨1, 5, "1970-01-01T04:00:00+00:00", true, "c"⟩,
         ⟨2, 5, "1970-01-01T06:00:00+00:00", false, "c"⟩]
        5 (some "1970-01-01T10:00:00+00:00") (some "1970-01-01T13:00:00+00:00")
      = .ok ([⟨1, 5, "1970-01-01T04:00:00+00:00", true, "c"⟩,
              ⟨2, 5, "1970-01-01T06:00:00+00:00", false, "c"⟩].map
          (fun r => if r.task_id = 5 then shiftReminder utcHost 36000 46800 r else r)) :=
  ⟨norm_1000,
   recalculate_shifts_all utcHost
     [⟨1, 5, "1970-01-01T04:00:00+00:00", true, "c"⟩,
      ⟨2, 5, "1970-01-01T06:00:00+00:00", false, "c"⟩]
     5 "1970-01-01T10:00:00+00:00" "1970-01-01T13:00:00+00:00" 36000 46800
     (by decide) norm_1000 norm_1300
     (by
       intro r hr _
       fin_cases hr
       · exact ⟨14400, norm_0400⟩
       · exact ⟨21600, norm_0600⟩)
     (by
       intro r hr hrt t ht q hq hqid hqt
       fin_cases hr <;> fin_cases hq <;>
         first
           | exact absurd rfl hqid
           | (dsimp only at ht ⊢
              simp only [norm_0400, norm_0600, Option.some.injEq] at ht
              subst ht
              decide))
     (by
       intro r hr q hq hrt hqt hne t u hta htb
       fin_cases hr <;> fin_cases hq <;>
         first
           | exact absurd rfl hne
           | (dsimp only at hta htb ⊢
              simp only [norm_0400, norm_0600, Option.some.injEq] at hta htb
              subst hta
              subst htb
              decide))⟩

/-- C10 witness: rewriting a task with its due date unchanged leaves the
reminder's time alone and resets its triggered flag. -/
theorem recalculate_same_due_resets_witness :
    normalize_datetime utcHost "1970-01-01T10:00:00+00:00" = some 36000 ∧
    recalculate_reminders_for_task utcHost
        [⟨1, 5, "1970-01-01T04:00:00+00:00", true, "c"⟩]
        5 (some "1970-01-01T10:00:00+00:00") (some "1970-01-01T10:00:00+00:00")
      = .ok ([⟨1, 5, "1970-01-01T04:00:00+00:00", true, "c"⟩].map
          (fun r => if r.task_id = 5 then { r with triggered := false } else r)) :=
  ⟨norm_1000,
   recalculate_same_due_resets utcHost
     [⟨1, 5, "1970-01-01T04:00:00+00:00", true, "c"⟩]
     5 "1970-01-01T10:00:00+00:00" "1970-01-01T10:00:00+00:00" 36000
     (by decide) norm_1000 norm_1000 (by decide)
     (by
       intro r hr _
       fin_cases hr
       exact ⟨14400, by decide, norm_0400⟩)⟩

/-- C5 witness: shifting by +2h makes the 04:00 reminder collide with the
stored 06:00 one; the colliding row is skipped (time and triggered flag
kept), the other row is still shifted, and the call returns success. -/
theorem recalculate_collision_skips_one_witness :
    normalize_datetime utcHost "1970-01-01T04:00:00+00:00" = some 14400 ∧
    recalculate_reminders_for_task utcHost
        [⟨1, 5, "1970-01-01T04:00:00+00:00", true, "c"⟩,
         ⟨2, 5, "1970-01-01T06:00:00+00:00", false, "c"⟩]
        5 (some "1970-01-01T10:00:00+00:00") (some "1970-01-01T12:00:00+00:00")
      = .ok ([⟨1, 5, "1970-01-01T04:00:00+00:00", true, "c"⟩,
              ⟨2, 5, "1970-01-01T06:00:00+00:00", false, "c"⟩].map
          (fun r => if r.id = (1 : Int) then r
            else if r.task_id = 5 then shiftReminder utcHost 36000 43200 r else r)) :=
  ⟨norm_0400,
   recalculate_collision_skips_one utcHost
     [⟨1, 5, "1970-01-01T04:00:00+00:00", true, "c"⟩,
      ⟨2, 5, "1970-01-01T06:00:00+00:00", false, "c"⟩]
     5 "1970-01-01T10:00:00+00:00" "1970-01-01T12:00:00+00:00" 36000 43200
     ⟨1, 5, "1970-01-01T04:00:00+00:00", true, "c"⟩
     ⟨2, 5, "1970-01-01T06:00:00+00:00", false, "c"⟩
     [] [⟨2, 5, "1970-01-01T06:00:00+00:00", false, "c"⟩] 14400
     (by decide) norm_1000 norm_1200 (by decide) (by decide) norm_0400 (by decide)
     (by
       intro r hr hrt hrne
       fin_cases hr
       · exact absurd rfl hrne
       · exact ⟨21600, norm_0600⟩)
     (by
       intro r hr hrt hrne t ht q hq hqid hqt
       fin_cases hr
       · exact absurd rfl hrne
       · fin_cases hq
         · dsimp only at ht ⊢
           simp only [norm_0600, Option.some.injEq] at ht
           subst ht
           decide
         · exact absurd rfl hqid)
     (by
       intro r hr q hq hrt hqt hne t u hta htb
       fin_cases hr <;> fin_cases hq <;>
         first
           | exact absurd rfl hne
           | (dsimp only at hta htb ⊢
              simp only [norm_0400, norm_0600, Option.some.injEq] at hta htb
              subst hta
              subst htb
              decide))⟩

end ZenTrack
